import Mathlib

/-!
# Verification of the Student-Paycheck-Buddy budgeting application

Shallow embedding of the core logic of `src/app.py` (a Flask budgeting app)
and proofs of the specification claims about it.

Conventions of the embedding:
* Python strings are modelled as `List Char`.
* Python `datetime.date` values are modelled by the structure `Date` below
  (proleptic Gregorian calendar, as used by CPython `datetime`); adding or
  subtracting a `timedelta(days = n)` is modelled as the `n`-fold calendar
  successor/predecessor (`addDays` / `subDays`), which is exactly CPython's
  `fromordinal (toordinal d ± n)` on in-range dates.
* SQLite tables are modelled as lists of row structures; inserts append.
* A Python statement that can raise an uncaught exception is modelled with
  `Option`, `none` meaning the request aborts with an error and the
  database is left unchanged.
-/

set_option maxRecDepth 4000

namespace SPB

/-! ## Characters and Python string helpers -/

/-- ASCII decimal digit test (the digits accepted by `int()` for the inputs
relevant here; CPython additionally accepts non-ASCII unicode digits, which
never arise in this application's forms). -/
def isDig (c : Char) : Bool := decide (48 ≤ c.toNat ∧ c.toNat ≤ 57)

/-- Numeric value of an ASCII digit character. -/
def digitVal (c : Char) : Nat := c.toNat - 48

/-- Python `str.strip` whitespace test (ASCII whitespace characters:
space, tab, newline, carriage return, vertical tab, form feed). -/
def isSpace (c : Char) : Bool :=
  decide (c.toNat = 32 ∨ c.toNat = 9 ∨ c.toNat = 10 ∨ c.toNat = 13 ∨
          c.toNat = 11 ∨ c.toNat = 12)

/-- Python `str.strip()`: drop whitespace from both ends. -/
def pyStrip (l : List Char) : List Char :=
  ((l.dropWhile isSpace).reverse.dropWhile isSpace).reverse

/-- Python `str.lower()` (ASCII range; the app applies it to form emails). -/
def pyLower (l : List Char) : List Char := l.map Char.toLower

/-- Python `s.split(sep, 1)`: the part before the first occurrence of `sep`
and, when `sep` occurs, the part after it. -/
def splitOnce (sep : Char) : List Char → List Char × Option (List Char)
  | [] => ([], none)
  | c :: cs =>
    if c = sep then ([], some cs)
    else
      let r := splitOnce sep cs
      (c :: r.1, r.2)

/-- Python `s.split(sep)` (unlimited): all fields between separators. -/
def splitAll (sep : Char) : List Char → List (List Char)
  | [] => [[]]
  | c :: cs =>
    if c = sep then [] :: splitAll sep cs
    else
      match splitAll sep cs with
      | p :: ps => (c :: p) :: ps
      | [] => [[c]]

/-- Digit scanner of CPython `int()` after the optional sign: one or more
decimal digits, with single underscores allowed between digits. -/
def pyDigitsAux : Nat → List Char → Option Nat
  | acc, [] => some acc
  | acc, c :: cs =>
    if isDig c then pyDigitsAux (acc * 10 + digitVal c) cs
    else if c = '_' then
      match cs with
      | c2 :: cs2 =>
        if isDig c2 then pyDigitsAux (acc * 10 + digitVal c2) cs2 else none
      | [] => none
    else none

/-- Digit part of `int()`: requires a leading digit. -/
def pyIntOfDigits : List Char → Option Nat
  | [] => none
  | c :: cs => if isDig c then pyDigitsAux (digitVal c) cs else none

/-- CPython `int(s)` on a string: strip whitespace, optional sign, digits.
`none` models the `ValueError` raised on malformed input. -/
def pyInt (s : List Char) : Option Int :=
  match pyStrip s with
  | [] => none
  | c :: cs =>
    if c = '+' then (pyIntOfDigits cs).map (fun n => (n : Int))
    else if c = '-' then (pyIntOfDigits cs).map (fun n => -(n : Int))
    else (pyIntOfDigits (c :: cs)).map (fun n => (n : Int))

/-- Decimal digits of a natural number, as produced by Python's `str`/
f-string formatting of a non-negative `int`. -/
def natDigits (n : Nat) : List Char :=
  if _h : n < 10 then [Nat.digitChar n]
  else natDigits (n / 10) ++ [Nat.digitChar (n % 10)]
  termination_by n
  decreasing_by exact Nat.div_lt_self (by omega) (by omega)

/-- Python `f"{n:02d}"` for `n < 100`: two-digit zero-padded rendering. -/
def pad2 (n : Nat) : List Char :=
  if n < 10 then '0' :: natDigits n else natDigits n

/-- Width-`w` zero-padded decimal rendering (most significant digit
first): the output of `strftime`'s `%Y` (w = 4) and `%m`/`%d` (w = 2)
directives for in-range values. -/
def padW : Nat → Nat → List Char
  | 0, _ => []
  | w + 1, n => padW w (n / 10) ++ [Nat.digitChar (n % 10)]

/-- SQLite BINARY collation, strict less-than: byte-wise comparison of the
UTF-8 encodings, which on code points is plain lexicographic order (all
text stored by this application is ASCII). -/
def strLt : List Char → List Char → Bool
  | [], [] => false
  | [], _ :: _ => true
  | _ :: _, [] => false
  | a :: as, b :: bs =>
    if a.toNat < b.toNat then true
    else if b.toNat < a.toNat then false
    else strLt as bs

/-- SQLite BINARY `<=`: the order `BETWEEN` applies to stored text. -/
def strLe (a b : List Char) : Bool := strLt a b || a == b

/-! ## Money helpers (`src/app.py` lines 79-93) -/

/-- `money_from_cents` (app.py 90-93):
`sign = "-" if c < 0 else ""`, `c = abs(c)`, `f"{sign}{c//100}.{c%100:02d}"`. -/
def money_from_cents (c : Int) : List Char :=
  (if c < 0 then ['-'] else []) ++
    natDigits (c.natAbs / 100) ++ '.' :: pad2 (c.natAbs % 100)

/-- `cents_from_money_str` (app.py 79-88).  `none` models the uncaught
`ValueError` that `int()` raises on a malformed dollars or cents part. -/
def cents_from_money_str (x : List Char) : Option Int :=
  let x := pyStrip x
  if x = [] then some 0
  else
    let dc : List Char × List Char :=
      if x.contains '.' then
        match splitOnce '.' x with
        | (d, some c) => (d, (c ++ ['0', '0']).take 2)
        | (d, none) => (d, ['0', '0'])
      else (x, ['0', '0'])
    match pyInt dc.1, pyInt dc.2 with
    | some dv, some cv => some (dv * 100 + cv)
    | _, _ => none

/-! ## Dates (CPython `datetime.date`, proleptic Gregorian calendar) -/

/-- A calendar date, as CPython's `datetime.date` (year, month, day). -/
structure Date where
  year : Nat
  month : Nat
  day : Nat
deriving DecidableEq, Repr

/-- Gregorian leap-year rule, as used by CPython `datetime`. -/
def isLeap (y : Nat) : Bool :=
  decide (y % 4 = 0 ∧ (¬ y % 100 = 0 ∨ y % 400 = 0))

/-- Length of month `m` of year `y` (0 for out-of-range months). -/
def daysInMonth (y m : Nat) : Nat :=
  match m with
  | 1 => 31
  | 2 => if isLeap y then 29 else 28
  | 3 => 31
  | 4 => 30
  | 5 => 31
  | 6 => 30
  | 7 => 31
  | 8 => 31
  | 9 => 30
  | 10 => 31
  | 11 => 30
  | 12 => 31
  | _ => 0

/-- Length of year `y` in days (0 for the out-of-range year 0). -/
def daysInYear (y : Nat) : Nat :=
  if y = 0 then 0 else if isLeap y then 366 else 365

/-- Days in the months of year `y` strictly before month `m`. -/
def daysBeforeMonth (y : Nat) : Nat → Nat
  | 0 => 0
  | m + 1 => daysBeforeMonth y m + daysInMonth y m

/-- Days in the years strictly before year `y` (years count from 1). -/
def daysBeforeYear : Nat → Nat
  | 0 => 0
  | y + 1 => daysBeforeYear y + daysInYear y

/-- CPython `date.toordinal`: day number counting 0001-01-01 as 1. -/
def toOrdinal (d : Date) : Nat :=
  daysBeforeYear d.year + daysBeforeMonth d.year d.month + d.day

/-- The dates representable by CPython `datetime.date` (we do not bound the
year above; the application never nears year 9999). -/
def Valid (d : Date) : Prop :=
  1 ≤ d.year ∧ 1 ≤ d.month ∧ d.month ≤ 12 ∧ 1 ≤ d.day ∧
    d.day ≤ daysInMonth d.year d.month

instance (d : Date) : Decidable (Valid d) := by unfold Valid; infer_instance

/-- Calendar successor of a date. -/
def nextDay (d : Date) : Date :=
  if d.day < daysInMonth d.year d.month then ⟨d.year, d.month, d.day + 1⟩
  else if d.month < 12 then ⟨d.year, d.month + 1, 1⟩
  else ⟨d.year + 1, 1, 1⟩

/-- Calendar predecessor of a date. -/
def prevDay (d : Date) : Date :=
  if 1 < d.day then ⟨d.year, d.month, d.day - 1⟩
  else if 1 < d.month then ⟨d.year, d.month - 1, daysInMonth d.year (d.month - 1)⟩
  else ⟨d.year - 1, 12, 31⟩

/-- Python `d + timedelta(days = n)` for `n ≥ 0`. -/
def addDays (d : Date) (n : Nat) : Date := nextDay^[n] d

/-- Python `d - timedelta(days = n)` for `n ≥ 0`. -/
def subDays (d : Date) (n : Nat) : Date := prevDay^[n] d

/-- Python `date.__lt__`: lexicographic comparison of (year, month, day). -/
def dateLt (a b : Date) : Bool :=
  decide (a.year < b.year ∨ (a.year = b.year ∧
    (a.month < b.month ∨ (a.month = b.month ∧ a.day < b.day))))

/-- Python `date.__le__`; also the order SQLite's `BETWEEN` applies to the
stored `YYYY-MM-DD` strings (string order coincides with date order). -/
def dateLe (a b : Date) : Bool := dateLt a b || a == b

/-- Python `(a - b).days`: difference of ordinals. -/
def dateSub (a b : Date) : Int := (toOrdinal a : Int) - (toOrdinal b : Int)

/-- Python `d.replace(day = k)`. -/
def replaceDay (d : Date) (k : Nat) : Date := ⟨d.year, d.month, k⟩

/-- `ymd` (app.py 76-77): `d.strftime("%Y-%m-%d")`, the zero-padded
rendering.  Exact for years 1000-9999 (the application's domain; below
1000 the padding of `%Y` is platform-dependent in CPython). -/
def ymd (d : Date) : List Char :=
  padW 4 d.year ++ '-' :: (padW 2 d.month ++ '-' :: padW 2 d.day)

/-- All-decimal-digit field of a `strptime` directive: its numeric value,
or `none` if empty or containing a non-digit. -/
def digitsField (l : List Char) : Option Nat :=
  if l ≠ [] ∧ l.all isDig then
    some (l.foldl (fun a c => a * 10 + digitVal c) 0)
  else none

/-- `parse_ymd` (app.py 73-74): `datetime.strptime(s, "%Y-%m-%d").date()`.
`%Y` matches exactly 4 digits, `%m` and `%d` match 1-2 digits, the whole
string must be consumed, and the values must form a real calendar date
with year ≥ 1.  `none` models the raised `ValueError`. -/
def parse_ymd (s : List Char) : Option Date :=
  match splitAll '-' s with
  | [ys, ms, ds] =>
    if ys.length = 4 ∧ 1 ≤ ms.length ∧ ms.length ≤ 2 ∧
        1 ≤ ds.length ∧ ds.length ≤ 2 then
      match digitsField ys, digitsField ms, digitsField ds with
      | some y, some mo, some dv =>
        if 1 ≤ y ∧ 1 ≤ mo ∧ mo ≤ 12 ∧ 1 ≤ dv ∧ dv ≤ daysInMonth y mo then
          some ⟨y, mo, dv⟩
        else none
      | _, _, _ => none
    else none
  | _ => none

/-- `current_pay_period` (app.py 100-104) applied to the stored
`next_payday` text of a `pay_schedules` row:
`period_end = next_payday - timedelta(days=1)`,
`period_start = period_end - timedelta(days=13)`. -/
def current_pay_period (next_payday_str : List Char) :
    Option (Date × Date × Date) :=
  (parse_ymd next_payday_str).map fun np =>
    let period_end := subDays np 1
    let period_start := subDays period_end 13
    (period_start, period_end, np)

/-! ## Table rows -/

/-- Transaction kind.  The `transactions/new` route (app.py 346-348) is the
only writer of the `transactions` table and rejects any kind other than
`income` or `expense`, so stored kinds form this two-element type. -/
inductive Kind where
  | income
  | expense
deriving DecidableEq, Repr

instance : BEq Kind := ⟨fun a b => decide (a = b)⟩

instance : LawfulBEq Kind where
  eq_of_beq := by intro a b h; exact of_decide_eq_true h
  rfl := by intro a; exact decide_eq_true rfl

/-- A row of the `transactions` table.  `occurred_on` is the raw stored
text: the `transactions/new` route (app.py 343-362) validates the form
value with `strptime("%Y-%m-%d")` — whose `%m`/`%d` accept one or two
digits — and then inserts the stripped string verbatim, so non-canonical
spellings such as "2026-1-5" are stored as given. -/
structure Txn where
  user_id : Nat
  kind : Kind
  amount_cents : Int
  category : List Char
  occurred_on : List Char
deriving DecidableEq, Repr

/-- A row of the `recurring_bills` table. -/
structure RecurringBill where
  user_id : Nat
  name : List Char
  amount_cents : Int
  due_day : Nat
  active : Nat
deriving DecidableEq, Repr

/-- A row of the `budgets` table. -/
structure BudgetRow where
  user_id : Nat
  category : List Char
  limit_cents : Int
deriving DecidableEq, Repr

/-- A row of the `pay_schedules` table (`next_payday` is stored as text). -/
structure ScheduleRow where
  user_id : Nat
  frequency : List Char
  next_payday : List Char
  typical_net_pay_cents : Int
deriving DecidableEq, Repr

/-- A row of the `users` table. -/
structure UserRow where
  id : Nat
  email : List Char
  password_hash : List Char
deriving DecidableEq, Repr

/-! ## Dashboard: pay-period transaction totals (app.py 214-228) -/

/-- The dashboard's per-kind SQL aggregate (app.py 215-225):
`SELECT SUM(amount_cents) FROM transactions WHERE user_id = ? AND
occurred_on BETWEEN ? AND ? GROUP BY kind`, bound to `ymd(start)` and
`ymd(end)`, with a missing group read back as 0.  `BETWEEN` compares the
raw stored `occurred_on` text against the two rendered endpoints in
SQLite's BINARY string order.  Relational semantics: filter then sum. -/
def sqlKindTotal (txs : List Txn) (uid : Nat) (s e : Date) (k : Kind) : Int :=
  (txs.filter fun t =>
      t.user_id == uid && strLe (ymd s) t.occurred_on &&
        strLe t.occurred_on (ymd e) && t.kind == k).foldl
    (fun a t => a + t.amount_cents) 0

/-- `remaining = typical + totals["income"] - totals["expense"]`
(app.py 227-228). -/
def dashboardRemaining (txs : List Txn) (uid : Nat) (typical : Int)
    (s e : Date) : Int :=
  typical + sqlKindTotal txs uid s e Kind.income
    - sqlKindTotal txs uid s e Kind.expense

/-! ## Dashboard: bills due before next payday (app.py 230-265) -/

/-- `(today.replace(day=1) + timedelta(days=32)).replace(day=1)`
(app.py 246): the code's computation of the first day of the next month. -/
def firstOfNextMonthCode (today : Date) : Date :=
  replaceDay (addDays (replaceDay today 1) 32) 1

/-- Projected due date of a bill with day-of-month `due_day` as computed by
the dashboard loop body (app.py 242-257). -/
def dueDateCode (today : Date) (due_day : Nat) : Date :=
  let first_next_month := firstOfNextMonthCode today
  let last_day := (prevDay first_next_month).day
  let actual_day := min due_day last_day
  let due_date := replaceDay today actual_day
  if dateLt due_date today then
    let next_month := firstOfNextMonthCode today
    let first_next_next := replaceDay (addDays next_month 32) 1
    let last_day_nm := (prevDay first_next_next).day
    let actual_day_nm := min due_day last_day_nm
    replaceDay next_month actual_day_nm
  else due_date

/-- The dashboard's bill loop (app.py 231-265): fetch the user's active
bills, keep those whose projected due date is before the next payday, and
accumulate their amounts.  (The SQL `ORDER BY due_day` only affects display
order and is dropped; the claims are about membership and the total.) -/
def dueBeforeCode (tbl : List RecurringBill) (uid : Nat)
    (today next_payday : Date) : List RecurringBill × Int :=
  (tbl.filter fun b => b.user_id == uid && b.active == 1).foldl
    (fun acc b =>
      if dateLt (dueDateCode today b.due_day) next_payday then
        (acc.1 ++ [b], acc.2 + b.amount_cents)
      else acc)
    ([], 0)

/-! ## Dashboard: daily spend limit (app.py 269-273) -/

/-- `days_left = (end - today).days + 1`, clamped below to 1. -/
def daysLeftCode (e today : Date) : Int :=
  let days_left := dateSub e today + 1
  if days_left < 1 then 1 else days_left

/-- `daily_limit = remaining // days_left`: Python `//` is floor division. -/
def dailyLimitCode (remaining : Int) (e today : Date) : Int :=
  Int.fdiv remaining (daysLeftCode e today)

/-! ## Route models.

Flash/render outcomes are reduced to the data the claims mention.  A POST
that raises an uncaught exception (a `ValueError` from `int()` inside
`cents_from_money_str`) is `none`: the response is a 500 error and the
table is untouched. -/

/-- Flash message of a successful bill insert. -/
def msgBillAdded : List Char := "Bill added!".data

/-- Flash message for a missing bill name (app.py 467). -/
def msgNameRequired : List Char := "Bill name required.".data

/-- Flash message for a non-numeric due day (app.py 473). -/
def msgDueDayNumber : List Char := "Due day must be a number 1-31.".data

/-- Flash message for an out-of-range due day (app.py 477). -/
def msgDueDayRange : List Char := "Due day must be between 1 and 31.".data

/-- POST handler of the `bills` route (app.py 461-489).  Returns the new
table and the flashed message, or `none` when `cents_from_money_str`
raises. -/
def billsPost (tbl : List RecurringBill) (uid : Nat)
    (name amount due_day : List Char) :
    Option (List RecurringBill × List Char) :=
  let name := pyStrip name
  let amount := pyStrip amount
  let due_day := pyStrip due_day
  if name = [] then some (tbl, msgNameRequired)
  else
    match pyInt due_day with
    | none => some (tbl, msgDueDayNumber)
    | some d =>
      if d < 1 ∨ 31 < d then some (tbl, msgDueDayRange)
      else
        match cents_from_money_str amount with
        | none => none
        | some ac =>
          some (tbl ++ [⟨uid, name, ac, d.toNat, 1⟩], msgBillAdded)

/-- The SQLite upsert of the `budgets` route (app.py 388-392):
`INSERT ... ON CONFLICT(user_id, category) DO UPDATE SET limit_cents = ...`.
Modelled from the spec: the conflict target requires the schema's
`(user_id, category)` UNIQUE constraint ("Budget: (user_id, category)
unique"); `schema.sql` itself is not under `src/`. -/
def upsertBudget (tbl : List BudgetRow) (uid : Nat) (cat : List Char)
    (lc : Int) : List BudgetRow :=
  if tbl.any (fun r => r.user_id == uid && r.category == cat) then
    tbl.map fun r =>
      if r.user_id == uid && r.category == cat then
        { r with limit_cents := lc }
      else r
  else tbl ++ [⟨uid, cat, lc⟩]

/-- POST handler of the `budgets` route (app.py 383-396). -/
def budgetsPost (tbl : List BudgetRow) (uid : Nat)
    (category limit : List Char) : Option (List BudgetRow) :=
  (cents_from_money_str (pyStrip limit)).map
    (upsertBudget tbl uid (pyStrip category))

/-- A sequence of POSTs to the budgets route starting from the empty table;
a request that raises leaves the table unchanged. -/
def applyBudgetPosts (posts : List (Nat × List Char × List Char)) :
    List BudgetRow :=
  posts.foldl (fun tbl p => (budgetsPost tbl p.1 p.2.1 p.2.2).getD tbl) []

/-- The stored frequency string: the setup route always inserts
`'biweekly'` (app.py 188). -/
def biweekly : List Char := "biweekly".data

/-- The SQLite upsert of the setup route (app.py 186-192):
`INSERT ... ON CONFLICT(user_id) DO UPDATE SET next_payday = ...,
typical_net_pay_cents = ...`.  Modelled from the spec: the conflict target
requires the schema's `user_id` UNIQUE constraint ("PaySchedule: one per
user"); `schema.sql` itself is not under `src/`. -/
def upsertSchedule (tbl : List ScheduleRow) (uid : Nat) (np : List Char)
    (c : Int) : List ScheduleRow :=
  if tbl.any (fun r => r.user_id == uid) then
    tbl.map fun r =>
      if r.user_id == uid then
        { r with next_payday := np, typical_net_pay_cents := c }
      else r
  else tbl ++ [⟨uid, biweekly, np, c⟩]

/-- POST handler of the `setup` route (app.py 174-196): an unparseable
`next_payday` flashes an error and leaves the table unchanged; then
`cents_from_money_str` may raise (`none`); otherwise upsert. -/
def setupPost (tbl : List ScheduleRow) (uid : Nat)
    (next_payday net_pay : List Char) : Option (List ScheduleRow) :=
  let np := pyStrip next_payday
  let pay := pyStrip net_pay
  match parse_ymd np with
  | none => some tbl
  | some _ =>
    match cents_from_money_str pay with
    | none => none
    | some c => some (upsertSchedule tbl uid np c)

/-- A sequence of POSTs to the setup route starting from the empty table. -/
def applySetupPosts (posts : List (Nat × List Char × List Char)) :
    List ScheduleRow :=
  posts.foldl (fun tbl p => (setupPost tbl p.1 p.2.1 p.2.2).getD tbl) []

/-- POST handler of the `signup` route (app.py 115-136); `hash` stands for
`generate_password_hash`.  Result: (users table, session user id, whether
the signup page was re-rendered with an error).  Modelled from the spec:
the duplicate-email `IntegrityError` branch relies on the schema's UNIQUE
email constraint ("User: ... email (unique)"); `schema.sql` itself is not
under `src/`. -/
def signupPost (tbl : List UserRow) (hash : List Char → List Char)
    (email pw : List Char) : List UserRow × Option Nat × Bool :=
  let e := pyLower (pyStrip email)
  if e = [] ∨ pw = [] then (tbl, none, true)
  else if tbl.any (fun r => r.email == e) then (tbl, none, true)
  else
    let nid := 1 + tbl.foldl (fun a r => max a r.id) 0
    (tbl ++ [⟨nid, e, hash pw⟩], some nid, false)

/-! ## Claim-side definitions (phrased from the spec's words) -/

/-- The first day of the month immediately following `d`'s month — the
claim's "the immediately following month", written directly from the
spec's words for comparison with the code's 32-day trick. -/
def monthFirstNext (d : Date) : Date :=
  if d.month < 12 then ⟨d.year, d.month + 1, 1⟩ else ⟨d.year + 1, 1, 1⟩

/-- Claim-side window membership for a transaction: the date its stored
`occurred_on` text denotes (via `parse_ymd`) lies within `[s, e]` in date
order, both endpoints included — the claim's "occurred_on lies within the
current pay period (inclusive of both endpoints)". -/
def inWindowB (s e : Date) (t : Txn) : Bool :=
  match parse_ymd t.occurred_on with
  | some d => dateLe s d && dateLe d e
  | none => false

/-- At most one `budgets` row per (user_id, category). -/
def BudgetsAtMostOne (tbl : List BudgetRow) : Prop :=
  ∀ (uid : Nat) (cat : List Char),
    tbl.countP (fun r => r.user_id == uid && r.category == cat) ≤ 1

/-- At most one `pay_schedules` row per user, and every stored row has
frequency `'biweekly'`. -/
def SchedInv (tbl : List ScheduleRow) : Prop :=
  (∀ uid : Nat, tbl.countP (fun r => r.user_id == uid) ≤ 1) ∧
    ∀ r ∈ tbl, r.frequency = biweekly

/-! ## Calendar lemmas -/

theorem daysInMonth_bounds (y m : Nat) (h1 : 1 ≤ m) (h2 : m ≤ 12) :
    28 ≤ daysInMonth y m ∧ daysInMonth y m ≤ 31 := by
  interval_cases m <;> by_cases h : isLeap y <;> simp [daysInMonth, h]

theorem daysBeforeMonth_succ (y m : Nat) :
    daysBeforeMonth y (m + 1) = daysBeforeMonth y m + daysInMonth y m := rfl

theorem daysBeforeMonth_one (y : Nat) : daysBeforeMonth y 1 = 0 := rfl

theorem daysBeforeYear_succ (y : Nat) :
    daysBeforeYear (y + 1) = daysBeforeYear y + daysInYear y := rfl

theorem daysBeforeYear_le_one (y : Nat) (h : y ≤ 1) : daysBeforeYear y = 0 := by
  interval_cases y <;> rfl

theorem daysBeforeMonth_year (y : Nat) (hy : 1 ≤ y) :
    daysBeforeMonth y 13 = daysInYear y := by
  have h0 : y ≠ 0 := by omega
  cases h : isLeap y <;>
    simp [daysBeforeMonth, daysInMonth, daysInYear, h0, h]

theorem toOrdinal_pos (d : Date) (hv : Valid d) : 1 ≤ toOrdinal d := by
  obtain ⟨hy, hm1, hm2, hd1, hd2⟩ := hv
  unfold toOrdinal
  omega

/-- `prevDay` of a valid date other than 0001-01-01 is the valid date whose
ordinal is one less. -/
theorem prevDay_spec (d : Date) (hv : Valid d) (h2 : 2 ≤ toOrdinal d) :
    Valid (prevDay d) ∧ toOrdinal (prevDay d) + 1 = toOrdinal d := by
  obtain ⟨y, m, dy⟩ := d
  obtain ⟨hy, hm1, hm2, hd1, hd2⟩ := hv
  unfold toOrdinal at h2
  unfold Valid toOrdinal prevDay
  dsimp only at hy hm1 hm2 hd1 hd2 h2 ⊢
  by_cases hdy : 1 < dy
  · rw [if_pos hdy]
    dsimp only
    exact ⟨⟨hy, hm1, hm2, by omega, by omega⟩, by omega⟩
  · rw [if_neg hdy]
    by_cases hm : 1 < m
    · obtain ⟨m', rfl⟩ : ∃ m', m = m' + 1 := ⟨m - 1, by omega⟩
      rw [if_pos hm]
      dsimp only
      rw [Nat.add_sub_cancel]
      have hb := daysInMonth_bounds y m' (by omega) (by omega)
      have hsucc := daysBeforeMonth_succ y m'
      exact ⟨⟨hy, by omega, by omega, by omega, by omega⟩, by omega⟩
    · have hdy1 : dy = 1 := by omega
      have hmm : m = 1 := by omega
      subst hdy1
      subst hmm
      rw [if_neg hm]
      dsimp only
      have hy2 : 2 ≤ y := by
        by_contra hc
        have h1 : y = 1 := by omega
        subst h1
        simp [daysBeforeYear, daysInYear, daysBeforeMonth, daysInMonth] at h2
      obtain ⟨y', rfl⟩ : ∃ y', y = y' + 1 := ⟨y - 1, by omega⟩
      rw [Nat.add_sub_cancel]
      have hy' : 1 ≤ y' := by omega
      have h13 : daysBeforeMonth y' 12 + 31 = daysInYear y' := by
        have ha := daysBeforeMonth_year y' hy'
        have hb : daysBeforeMonth y' 13 =
            daysBeforeMonth y' 12 + daysInMonth y' 12 := rfl
        have hc : daysInMonth y' 12 = 31 := rfl
        omega
      have hY : daysBeforeYear (y' + 1) = daysBeforeYear y' + daysInYear y' :=
        rfl
      have hB1 : daysBeforeMonth (y' + 1) 1 = 0 := rfl
      have hdm : daysInMonth y' 12 = 31 := rfl
      exact ⟨⟨by omega, by omega, by omega, by omega, by omega⟩, by omega⟩

/-- `subDays` (iterated `prevDay`) stays valid and subtracts from the
ordinal, as long as it does not step before 0001-01-01. -/
theorem subDays_spec (n : Nat) (d : Date) (hv : Valid d)
    (h : n + 1 ≤ toOrdinal d) :
    Valid (subDays d n) ∧ toOrdinal (subDays d n) + n = toOrdinal d := by
  induction n with
  | zero => simpa [subDays] using hv
  | succ k ih =>
    have hk := ih (by omega)
    have hstep := prevDay_spec (subDays d k) hk.1 (by omega)
    have : subDays d (k + 1) = prevDay (subDays d k) := by
      simp [subDays, Function.iterate_succ_apply']
    rw [this]
    exact ⟨hstep.1, by omega⟩

/-- A successful `parse_ymd` yields a valid calendar date. -/
theorem parse_ymd_valid (s : List Char) (d : Date)
    (h : parse_ymd s = some d) : Valid d := by
  unfold parse_ymd at h
  repeat' split at h
  all_goals cases h
  unfold Valid
  dsimp only
  assumption

/-! ## Claim C1: the current pay period -/

/-- C1: for every stored pay schedule whose `next_payday` text parses as a
date (not within the first 14 days of year 1, where CPython's date
arithmetic would overflow), `current_pay_period` returns a period whose
end is the day immediately before `next_payday` (one less in ordinal,
still a valid date) and whose start is 13 days before that end, so the
period spans exactly 14 consecutive days ending the day before the next
payday. -/
theorem C1_current_pay_period_fourteen_days (s : List Char) (np : Date)
    (hp : parse_ymd s = some np) (h15 : 15 ≤ toOrdinal np) :
    ∃ ps pe : Date,
      current_pay_period s = some (ps, pe, np) ∧
      Valid pe ∧ toOrdinal pe + 1 = toOrdinal np ∧
      Valid ps ∧ toOrdinal ps + 13 = toOrdinal pe ∧
      toOrdinal np - toOrdinal ps = 14 := by
  have hv := parse_ymd_valid s np hp
  have h1 := subDays_spec 1 np hv (by omega)
  have h13 := subDays_spec 13 (subDays np 1) h1.1 (by omega)
  exact ⟨subDays (subDays np 1) 13, subDays np 1,
    by simp [current_pay_period, hp], h1.1, by omega, h13.1, by omega,
    by omega⟩

/-- Witness for C1 at the concrete schedule string "0005-01-20". -/
theorem C1_witness :
    parse_ymd "0005-01-20".data = some ⟨5, 1, 20⟩ ∧
    15 ≤ toOrdinal ⟨5, 1, 20⟩ ∧
    (∃ ps pe : Date,
      current_pay_period "0005-01-20".data = some (ps, pe, ⟨5, 1, 20⟩) ∧
      Valid pe ∧ toOrdinal pe + 1 = toOrdinal ⟨5, 1, 20⟩ ∧
      Valid ps ∧ toOrdinal ps + 13 = toOrdinal pe ∧
      toOrdinal ⟨5, 1, 20⟩ - toOrdinal ps = 14) :=
  ⟨by decide, by decide,
    C1_current_pay_period_fourteen_days _ _ (by decide) (by decide)⟩

/-! ## Claim C10: the daily-limit divisor is at least 1 -/

/-- C10: for every pay-period end date and every value of today's date, the
divisor used for the dashboard's daily limit is at least 1, so the
daily-limit division never divides by zero or by a negative number. -/
theorem C10_days_left_at_least_one (e today : Date) :
    1 ≤ daysLeftCode e today := by
  unfold daysLeftCode
  dsimp only
  split <;> omega

/-! ## Claim C3: the daily spending allowance -/

/-- C3: for every remaining-cents amount and every value of today, the
dashboard's divisor equals the number of days from today through the
period end inclusive clamped below to 1, and the daily limit is the floor
of remaining divided by that divisor (characterised by the euclidean
bracketing, which pins down floor division uniquely). -/
theorem C3_daily_limit_floor_division (remaining : Int) (e today : Date) :
    daysLeftCode e today = max 1 (dateSub e today + 1) ∧
    dailyLimitCode remaining e today * daysLeftCode e today ≤ remaining ∧
    remaining <
      dailyLimitCode remaining e today * daysLeftCode e today
        + daysLeftCode e today := by
  have hpos : (1 : Int) ≤ daysLeftCode e today := by
    unfold daysLeftCode
    dsimp only
    split <;> omega
  refine ⟨?_, ?_, ?_⟩
  · unfold daysLeftCode
    dsimp only
    split <;> omega
  all_goals
    unfold dailyLimitCode
    rw [Int.fdiv_eq_ediv _ (by omega)]
    have heq := Int.ediv_add_emod remaining (daysLeftCode e today)
    have h0 := Int.emod_nonneg remaining
      (show daysLeftCode e today ≠ 0 by omega)
    have h1 := Int.emod_lt_of_pos remaining
      (show 0 < daysLeftCode e today by omega)
    rw [mul_comm]
    omega

/-! ## Claim C5: the bills POST route -/

/-- C5 counterexample: a POST with non-empty name "x" and due_day "5"
(which parses to 5, inside 1..31) but amount "abc" inserts no row — the
claim's iff demands an insert, but `int("abc")` inside
`cents_from_money_str` raises and the request aborts (`none`), with no
flash and no table change. -/
theorem C5_counterexample :
    (pyStrip "x".data ≠ [] ∧ pyInt (pyStrip "5".data) = some 5 ∧
      (1 : Int) ≤ 5 ∧ (5 : Int) ≤ 31) ∧
    billsPost [] 1 "x".data "abc".data "5".data = none :=
  ⟨⟨by decide, by decide, by decide, by decide⟩, by decide⟩

/-- C5 amended: a `recurring_bills` row is inserted iff the submitted name
is non-empty, the submitted due_day parses as an integer in 1..31, and the
submitted amount is accepted by `cents_from_money_str` (otherwise the
request raises and nothing is written).  When the name or due-day check
fails, the table is unchanged and one of the route's error messages is
flashed.  Every inserted row has `active = 1` and the parsed due day. -/
theorem C5_bills_post_amended (tbl : List RecurringBill) (uid : Nat)
    (name amount due_day : List Char) :
    ((∃ tbl' msg, billsPost tbl uid name amount due_day = some (tbl', msg) ∧
        tbl'.length = tbl.length + 1) ↔
      (pyStrip name ≠ [] ∧
        (∃ d : Int, pyInt (pyStrip due_day) = some d ∧ 1 ≤ d ∧ d ≤ 31) ∧
        ∃ a, cents_from_money_str (pyStrip amount) = some a))
    ∧ ((pyStrip name = [] ∨
          (∀ d : Int, pyInt (pyStrip due_day) = some d → d < 1 ∨ 31 < d) ∨
          pyInt (pyStrip due_day) = none) →
        ∃ msg, billsPost tbl uid name amount due_day = some (tbl, msg) ∧
          (msg = msgNameRequired ∨ msg = msgDueDayNumber ∨
            msg = msgDueDayRange))
    ∧ (∀ tbl' msg, billsPost tbl uid name amount due_day = some (tbl', msg) →
        tbl' = tbl ∨
        ∃ (d : Int) (a : Int), pyInt (pyStrip due_day) = some d ∧
          1 ≤ d ∧ d ≤ 31 ∧
          cents_from_money_str (pyStrip amount) = some a ∧
          tbl' = tbl ++ [⟨uid, pyStrip name, a, d.toNat, 1⟩]) := by
  simp only [billsPost]
  by_cases hn : pyStrip name = []
  · rw [if_pos hn]
    refine ⟨?_, ?_, ?_⟩
    · constructor
      · rintro ⟨tbl', msg, heq, hlen⟩
        cases heq
        omega
      · rintro ⟨hne, -⟩
        exact absurd hn hne
    · intro _
      exact ⟨msgNameRequired, rfl, Or.inl rfl⟩
    · intro tbl' msg heq
      cases heq
      exact Or.inl rfl
  · rw [if_neg hn]
    cases hd : pyInt (pyStrip due_day) with
    | none =>
      dsimp only
      refine ⟨?_, ?_, ?_⟩
      · constructor
        · rintro ⟨tbl', msg, heq, hlen⟩
          cases heq
          omega
        · rintro ⟨-, ⟨d', hd', -, -⟩, -⟩
          cases hd'
      · intro _
        exact ⟨msgDueDayNumber, rfl, Or.inr (Or.inl rfl)⟩
      · intro tbl' msg heq
        cases heq
        exact Or.inl rfl
    | some d =>
      dsimp only
      by_cases hr : d < 1 ∨ 31 < d
      · rw [if_pos hr]
        refine ⟨?_, ?_, ?_⟩
        · constructor
          · rintro ⟨tbl', msg, heq, hlen⟩
            cases heq
            omega
          · rintro ⟨-, ⟨d', hd', h1, h2⟩, -⟩
            cases hd'
            omega
        · intro _
          exact ⟨msgDueDayRange, rfl, Or.inr (Or.inr rfl)⟩
        · intro tbl' msg heq
          cases heq
          exact Or.inl rfl
      · rw [if_neg hr]
        cases ha : cents_from_money_str (pyStrip amount) with
        | none =>
          dsimp only
          refine ⟨?_, ?_, ?_⟩
          · constructor
            · rintro ⟨tbl', msg, heq, -⟩
              cases heq
            · rintro ⟨-, -, ⟨a, ha'⟩⟩
              cases ha'
          · rintro (h | h | h)
            · exact absurd h hn
            · have := h d rfl
              omega
            · cases h
          · intro tbl' msg heq
            cases heq
        | some a =>
          dsimp only
          refine ⟨?_, ?_, ?_⟩
          · constructor
            · intro _
              exact ⟨hn, ⟨d, rfl, by omega, by omega⟩, ⟨a, rfl⟩⟩
            · intro _
              exact ⟨tbl ++ [⟨uid, pyStrip name, a, d.toNat, 1⟩],
                msgBillAdded, rfl, by simp⟩
          · rintro (h | h | h)
            · exact absurd h hn
            · have := h d rfl
              omega
            · cases h
          · intro tbl' msg heq
            cases heq
            exact Or.inr ⟨d, a, rfl, by omega, by omega, rfl, rfl⟩

/-- Witness for the amended C5: a well-formed POST inserts one row; an
empty name flashes an error and leaves the empty table unchanged. -/
theorem C5_witness :
    (∃ tbl' msg,
      billsPost [] 1 "Rent".data "3.50".data "5".data = some (tbl', msg) ∧
      tbl'.length = ([] : List RecurringBill).length + 1) ∧
    (∃ msg, billsPost [] 1 "".data "1".data "5".data = some ([], msg) ∧
      (msg = msgNameRequired ∨ msg = msgDueDayNumber ∨
        msg = msgDueDayRange)) :=
  ⟨(C5_bills_post_amended [] 1 "Rent".data "3.50".data "5".data).1.mpr
      ⟨by decide, ⟨5, by decide, by decide, by decide⟩, ⟨350, by decide⟩⟩,
    (C5_bills_post_amended [] 1 "".data "1".data "5".data).2.1
      (Or.inl (by decide))⟩

/-! ## Claim C6: budgets are unique per (user, category) and upserted -/

theorem upsertBudget_inv (tbl : List BudgetRow) (uid : Nat) (cat : List Char)
    (lc : Int) (h : BudgetsAtMostOne tbl) :
    BudgetsAtMostOne (upsertBudget tbl uid cat lc) := by
  intro uid' cat'
  unfold upsertBudget
  split
  · rw [List.countP_map,
      List.countP_congr (q := fun r => r.user_id == uid' && r.category == cat')
        (fun r _ => by
          simp only [Function.comp_apply]
          split <;> simp)]
    exact h uid' cat'
  · rename_i hany
    rw [List.countP_append]
    have hx : List.countP (fun r => r.user_id == uid' && r.category == cat')
        [(⟨uid, cat, lc⟩ : BudgetRow)]
        = if (uid == uid' && cat == cat') = true then 1 else 0 := by
      simp [List.countP_cons]
    by_cases hk : (uid == uid' && cat == cat') = true
    · simp only [Bool.and_eq_true, beq_iff_eq] at hk
      obtain ⟨h1, h2⟩ := hk
      subst h1
      subst h2
      have h0 : List.countP
          (fun r => r.user_id == uid && r.category == cat) tbl = 0 := by
        rw [List.countP_eq_zero]
        intro r hr hp
        exact hany (List.any_eq_true.mpr ⟨r, hr, hp⟩)
      rw [h0, hx]
      split <;> omega
    · rw [hx, if_neg hk]
      have := h uid' cat'
      omega

theorem applyBudgetPosts_inv (posts : List (Nat × List Char × List Char)) :
    BudgetsAtMostOne (applyBudgetPosts posts) := by
  suffices h : ∀ tbl, BudgetsAtMostOne tbl →
      BudgetsAtMostOne (posts.foldl (fun tbl p =>
        (budgetsPost tbl p.1 p.2.1 p.2.2).getD tbl) tbl) by
    exact h [] (by intro uid cat; simp)
  induction posts with
  | nil => exact fun tbl h => h
  | cons p ps ih =>
    intro tbl h
    simp only [List.foldl_cons]
    apply ih
    unfold budgetsPost
    cases hc : cents_from_money_str (pyStrip p.2.2) with
    | none => simpa using h
    | some lc => simpa using upsertBudget_inv tbl p.1 (pyStrip p.2.1) lc h

/-- C6: after any sequence of POSTs to the budgets route there is at most
one budget row per (user_id, category) pair, and a POST for a pair that
already has a row (whose limit string parses to `lc` cents) replaces that
row's `limit_cents` with `lc` in place — the row count is unchanged and
rows of other pairs are untouched — rather than adding a row. -/
theorem C6_budgets_unique_upsert :
    (∀ posts, BudgetsAtMostOne (applyBudgetPosts posts))
    ∧ ∀ (tbl : List BudgetRow) (uid : Nat) (category limit : List Char)
        (lc : Int),
        (∃ r ∈ tbl, r.user_id = uid ∧ r.category = pyStrip category) →
        cents_from_money_str (pyStrip limit) = some lc →
        ∃ tbl', budgetsPost tbl uid category limit = some tbl' ∧
          tbl'.length = tbl.length ∧
          (∀ r' ∈ tbl', r'.user_id = uid → r'.category = pyStrip category →
            r'.limit_cents = lc) ∧
          (∀ r ∈ tbl, ¬(r.user_id = uid ∧ r.category = pyStrip category) →
            r ∈ tbl') := by
  refine ⟨applyBudgetPosts_inv, ?_⟩
  intro tbl uid category limit lc hex hc
  obtain ⟨r, hr, hru, hrc⟩ := hex
  have hany : tbl.any
      (fun r => r.user_id == uid && r.category == pyStrip category)
      = true :=
    List.any_eq_true.mpr ⟨r, hr, by simp [hru, hrc]⟩
  unfold budgetsPost upsertBudget
  rw [hc]
  simp only [Option.map_some', hany, if_pos]
  refine ⟨_, rfl, by simp, ?_, ?_⟩
  · intro r' hr' h1 h2
    rw [List.mem_map] at hr'
    obtain ⟨r0, hr0, rfl⟩ := hr'
    revert h1 h2
    by_cases hcond :
        (r0.user_id == uid && r0.category == pyStrip category) = true
    · rw [if_pos hcond]
      intro _ _
      rfl
    · rw [if_neg hcond]
      intro h1 h2
      exact absurd (by simp [h1, h2]) hcond
  · intro r0 hr0 hnm
    have hcf : (r0.user_id == uid && r0.category == pyStrip category)
        = false := by
      rw [← Bool.not_eq_true]
      simpa [Bool.and_eq_true, beq_iff_eq] using hnm
    have hmem := List.mem_map_of_mem
      (fun r => if (r.user_id == uid && r.category == pyStrip category)
        then { r with limit_cents := lc } else r) hr0
    simpa [hcf] using hmem

/-- Witness for C6: two POSTs for the same (user, category) keep the table
at one row, and a repeat POST replaces the stored limit in place. -/
theorem C6_witness :
    BudgetsAtMostOne
      (applyBudgetPosts [(1, "Rent".data, "100".data),
        (1, "Rent".data, "120".data)]) ∧
    (∃ tbl', budgetsPost [(⟨1, "Rent".data, 10000⟩ : BudgetRow)] 1
        "Rent".data "120".data = some tbl' ∧
      tbl'.length = [(⟨1, "Rent".data, 10000⟩ : BudgetRow)].length ∧
      (∀ r' ∈ tbl', r'.user_id = 1 → r'.category = pyStrip "Rent".data →
        r'.limit_cents = 12000) ∧
      (∀ r ∈ [(⟨1, "Rent".data, 10000⟩ : BudgetRow)],
        ¬(r.user_id = 1 ∧ r.category = pyStrip "Rent".data) → r ∈ tbl')) :=
  ⟨C6_budgets_unique_upsert.1 _,
    C6_budgets_unique_upsert.2 _ 1 "Rent".data "120".data 12000
      ⟨⟨1, "Rent".data, 10000⟩, by decide, rfl, by decide⟩ (by decide)⟩

/-! ## Claim C7: pay schedules are one-per-user, biweekly, upserted -/

theorem upsertSchedule_inv (tbl : List ScheduleRow) (uid : Nat)
    (np : List Char) (c : Int) (h : SchedInv tbl) :
    SchedInv (upsertSchedule tbl uid np c) := by
  obtain ⟨hcount, hfreq⟩ := h
  unfold upsertSchedule
  split
  · constructor
    · intro uid'
      rw [List.countP_map,
        List.countP_congr (q := fun r => r.user_id == uid')
          (fun r _ => by
            simp only [Function.comp_apply]
            split <;> simp)]
      exact hcount uid'
    · intro r' hr'
      rw [List.mem_map] at hr'
      obtain ⟨r0, hr0, rfl⟩ := hr'
      split
      · exact hfreq r0 hr0
      · exact hfreq r0 hr0
  · rename_i hany
    constructor
    · intro uid'
      rw [List.countP_append]
      have hx : List.countP (fun r => r.user_id == uid')
          [(⟨uid, biweekly, np, c⟩ : ScheduleRow)]
          = if (uid == uid') = true then 1 else 0 := by
        simp [List.countP_cons]
      by_cases hk : (uid == uid') = true
      · have h1 : uid = uid' := by simpa using hk
        subst h1
        have h0 : List.countP (fun r => r.user_id == uid) tbl = 0 := by
          rw [List.countP_eq_zero]
          intro r hr hp
          exact hany (List.any_eq_true.mpr ⟨r, hr, hp⟩)
        rw [h0, hx]
        split <;> omega
      · rw [hx, if_neg hk]
        have := hcount uid'
        omega
    · intro r' hr'
      rcases List.mem_append.mp hr' with h | h
      · exact hfreq r' h
      · rw [List.mem_singleton] at h
        subst h
        rfl

theorem applySetupPosts_inv (posts : List (Nat × List Char × List Char)) :
    SchedInv (applySetupPosts posts) := by
  suffices h : ∀ tbl, SchedInv tbl →
      SchedInv (posts.foldl (fun tbl p =>
        (setupPost tbl p.1 p.2.1 p.2.2).getD tbl) tbl) by
    exact h [] ⟨by intro uid; simp, by intro r hr; cases hr⟩
  induction posts with
  | nil => exact fun tbl h => h
  | cons p ps ih =>
    intro tbl h
    simp only [List.foldl_cons]
    apply ih
    simp only [setupPost]
    cases hp : parse_ymd (pyStrip p.2.1) with
    | none => simpa using h
    | some d =>
      dsimp only
      cases hc : cents_from_money_str (pyStrip p.2.2) with
      | none => simpa using h
      | some c =>
        simpa using upsertSchedule_inv tbl p.1 (pyStrip p.2.1) c h

/-- C7: after any sequence of POSTs to the setup route every user has at
most one `pay_schedules` row and every stored row has frequency
`'biweekly'`; a repeated setup POST for a user who already has a row (with
a parsing date and amount) updates that row's `next_payday` and
`typical_net_pay_cents` in place — row count unchanged, other users'
rows untouched; and a POST whose `next_payday` does not parse as
YYYY-MM-DD leaves the table unchanged. -/
theorem C7_setup_schedule_upsert :
    (∀ posts, SchedInv (applySetupPosts posts))
    ∧ (∀ (tbl : List ScheduleRow) (uid : Nat) (np pay : List Char)
        (d : Date) (c : Int),
        parse_ymd (pyStrip np) = some d →
        cents_from_money_str (pyStrip pay) = some c →
        (∃ r ∈ tbl, r.user_id = uid) →
        ∃ tbl', setupPost tbl uid np pay = some tbl' ∧
          tbl'.length = tbl.length ∧
          (∀ r' ∈ tbl', r'.user_id = uid → r'.next_payday = pyStrip np ∧
            r'.typical_net_pay_cents = c) ∧
          (∀ r ∈ tbl, r.user_id ≠ uid → r ∈ tbl'))
    ∧ ∀ (tbl : List ScheduleRow) (uid : Nat) (np pay : List Char),
        parse_ymd (pyStrip np) = none →
        setupPost tbl uid np pay = some tbl := by
  refine ⟨applySetupPosts_inv, ?_, ?_⟩
  · intro tbl uid np pay d c hp hc hex
    obtain ⟨r, hr, hru⟩ := hex
    have hany : tbl.any (fun r => r.user_id == uid) = true :=
      List.any_eq_true.mpr ⟨r, hr, by simp [hru]⟩
    simp only [setupPost]
    rw [hp]
    dsimp only
    rw [hc]
    simp only [upsertSchedule, hany, if_pos]
    refine ⟨_, rfl, by simp, ?_, ?_⟩
    · intro r' hr' h1
      rw [List.mem_map] at hr'
      obtain ⟨r0, hr0, rfl⟩ := hr'
      revert h1
      by_cases hcond : (r0.user_id == uid) = true
      · rw [if_pos hcond]
        exact fun _ => ⟨rfl, rfl⟩
      · rw [if_neg hcond]
        intro h1
        exact absurd (by simp [h1]) hcond
    · intro r0 hr0 hnm
      have hcf : (r0.user_id == uid) = false := by
        rw [← Bool.not_eq_true]
        simpa using hnm
      have hmem := List.mem_map_of_mem
        (fun r => if (r.user_id == uid) = true then
          { r with next_payday := pyStrip np, typical_net_pay_cents := c }
          else r) hr0
      simpa [hcf] using hmem
  · intro tbl uid np pay hp
    simp only [setupPost]
    rw [hp]

/-- Witness for C7: a two-POST sequence for user 1 keeps one biweekly row,
a repeat POST updates in place, and a malformed date changes nothing. -/
theorem C7_witness :
    SchedInv (applySetupPosts
      [(1, "0005-01-20".data, "900".data),
        (1, "0005-02-03".data, "905".data)]) ∧
    (∃ tbl', setupPost
        [(⟨1, biweekly, "0005-01-20".data, 90000⟩ : ScheduleRow)] 1
        "0005-02-03".data "905".data = some tbl' ∧
      tbl'.length
        = [(⟨1, biweekly, "0005-01-20".data, 90000⟩ : ScheduleRow)].length ∧
      (∀ r' ∈ tbl', r'.user_id = 1 →
        r'.next_payday = pyStrip "0005-02-03".data ∧
        r'.typical_net_pay_cents = 90500) ∧
      (∀ r ∈ [(⟨1, biweekly, "0005-01-20".data, 90000⟩ : ScheduleRow)],
        r.user_id ≠ 1 → r ∈ tbl')) ∧
    setupPost [(⟨1, biweekly, "0005-01-20".data, 90000⟩ : ScheduleRow)] 1
        "bad-date".data "905".data
      = some [(⟨1, biweekly, "0005-01-20".data, 90000⟩ : ScheduleRow)] :=
  ⟨C7_setup_schedule_upsert.1 _,
    C7_setup_schedule_upsert.2.1 _ 1 "0005-02-03".data "905".data
      ⟨5, 2, 3⟩ 90500 (by decide) (by decide)
      ⟨⟨1, biweekly, "0005-01-20".data, 90000⟩, by decide, rfl⟩,
    C7_setup_schedule_upsert.2.2 _ 1 "bad-date".data "905".data (by decide)⟩

/-! ## Claim C8: signup and the unique email -/

/-- C8: for a signup POST whose processed (trimmed, lower-cased) email is
non-empty and whose password is non-empty, a new user row is created iff
no user with that email exists; on a duplicate the users table is
unchanged and the signup page is re-rendered with an error instead of
logging the requester in. -/
theorem C8_signup_unique_email (tbl : List UserRow)
    (hash : List Char → List Char) (email pw : List Char)
    (he : pyLower (pyStrip email) ≠ []) (hpw : pw ≠ []) :
    ((∃ r ∈ tbl, r.email = pyLower (pyStrip email)) →
      signupPost tbl hash email pw = (tbl, none, true))
    ∧ ((¬∃ r ∈ tbl, r.email = pyLower (pyStrip email)) →
      ∃ nid, signupPost tbl hash email pw
        = (tbl ++ [⟨nid, pyLower (pyStrip email), hash pw⟩],
            some nid, false)) := by
  have hne : ¬(pyLower (pyStrip email) = [] ∨ pw = []) := by
    simp [he, hpw]
  constructor
  · rintro ⟨r, hr, hre⟩
    simp only [signupPost]
    rw [if_neg hne,
      if_pos (List.any_eq_true.mpr ⟨r, hr, by simp [hre]⟩)]
  · intro hnex
    have hb : ¬(tbl.any
        (fun r => r.email == pyLower (pyStrip email)) = true) := by
      intro hany
      obtain ⟨r, hr, hp⟩ := List.any_eq_true.mp hany
      exact hnex ⟨r, hr, by simpa using hp⟩
    simp only [signupPost]
    rw [if_neg hne, if_neg hb]
    exact ⟨_, rfl⟩

/-- Witness for C8: a duplicate email (after trimming and lower-casing)
leaves the one-row users table unchanged, shows the error page and logs
nobody in; a fresh email appends a row and logs the new user in. -/
theorem C8_witness :
    (pyLower (pyStrip " A@B.c ".data) ≠ [] ∧ "pw".data ≠ ([] : List Char)) ∧
    signupPost [(⟨1, "a@b.c".data, "h".data⟩ : UserRow)] (fun p => p)
        " A@B.c ".data "pw".data
      = ([(⟨1, "a@b.c".data, "h".data⟩ : UserRow)], none, true) ∧
    (∃ nid, signupPost [(⟨1, "a@b.c".data, "h".data⟩ : UserRow)]
        (fun p => p) "new@b.c".data "pw".data
      = ([(⟨1, "a@b.c".data, "h".data⟩ : UserRow)] ++
          [⟨nid, pyLower (pyStrip "new@b.c".data), "pw".data⟩],
          some nid, false)) :=
  ⟨⟨by decide, by decide⟩,
    (C8_signup_unique_email [⟨1, "a@b.c".data, "h".data⟩] (fun p => p)
        " A@B.c ".data "pw".data (by decide) (by decide)).1
      ⟨⟨1, "a@b.c".data, "h".data⟩, by decide, by decide⟩,
    (C8_signup_unique_email [⟨1, "a@b.c".data, "h".data⟩] (fun p => p)
        "new@b.c".data "pw".data (by decide) (by decide)).2
      (by
        rintro ⟨r, hr, hre⟩
        rw [List.mem_singleton] at hr
        subst hr
        exact absurd hre (by decide))⟩

/-! ## Claim C9: money round-trip -/

theorem digitChar_isDig (m : Nat) (h : m < 10) :
    isDig (Nat.digitChar m) = true := by
  interval_cases m <;> decide

theorem digitChar_val (m : Nat) (h : m < 10) :
    digitVal (Nat.digitChar m) = m := by
  interval_cases m <;> decide

theorem isDig_not_space (c : Char) (h : isDig c = true) :
    isSpace c = false := by
  simp only [isDig, decide_eq_true_eq] at h
  simp only [isSpace, decide_eq_false_iff_not]
  omega

theorem isDig_ne_sign (c : Char) (h : isDig c = true) :
    c ≠ '+' ∧ c ≠ '-' :=
  ⟨fun hp => absurd h (by rw [hp]; decide),
    fun hm => absurd h (by rw [hm]; decide)⟩

theorem natDigits_all_dig (n : Nat) : ∀ c ∈ natDigits n, isDig c = true := by
  induction n using Nat.strong_induction_on with
  | _ n ih =>
    rw [natDigits]
    split
    · rename_i h
      intro c hc
      rw [List.mem_singleton] at hc
      subst hc
      exact digitChar_isDig n h
    · rename_i h
      intro c hc
      rw [List.mem_append] at hc
      rcases hc with hc | hc
      · exact ih (n / 10) (Nat.div_lt_self (by omega) (by omega)) c hc
      · rw [List.mem_singleton] at hc
        subst hc
        exact digitChar_isDig (n % 10) (Nat.mod_lt _ (by omega))

theorem natDigits_ne_nil (n : Nat) : natDigits n ≠ [] := by
  rw [natDigits]
  split <;> simp

theorem natDigits_lt10 (n : Nat) (h : n < 10) :
    natDigits n = [Nat.digitChar n] := by
  rw [natDigits, dif_pos h]

theorem natDigits_foldl (n : Nat) : ∀ acc : Nat,
    (natDigits n).foldl (fun a c => a * 10 + digitVal c) acc
      = acc * 10 ^ (natDigits n).length + n := by
  induction n using Nat.strong_induction_on with
  | _ n ih =>
    intro acc
    rw [natDigits]
    split
    · rename_i h
      simp [digitChar_val n h]
    · rename_i h
      have hlt : n / 10 < n := Nat.div_lt_self (by omega) (by omega)
      rw [List.foldl_append, ih (n / 10) hlt acc]
      simp only [List.foldl_cons, List.foldl_nil, List.length_append,
        List.length_singleton, digitChar_val (n % 10) (by omega)]
      rw [pow_succ, ← mul_assoc]
      generalize acc * 10 ^ (natDigits (n / 10)).length = A
      omega

theorem pyDigitsAux_digits (cs : List Char) : ∀ acc : Nat,
    (∀ c ∈ cs, isDig c = true) →
    pyDigitsAux acc cs
      = some (cs.foldl (fun a c => a * 10 + digitVal c) acc) := by
  induction cs with
  | nil =>
    intro acc _
    rfl
  | cons c cs ih =>
    intro acc h
    have hc : isDig c = true := h c (by simp)
    rw [pyDigitsAux.eq_def]
    dsimp only
    rw [if_pos hc, List.foldl_cons]
    exact ih _ (fun x hx => h x (List.mem_cons_of_mem c hx))

theorem pyIntOfDigits_natDigits (n : Nat) :
    pyIntOfDigits (natDigits n) = some n := by
  obtain ⟨c, cs, hcc⟩ := List.exists_cons_of_ne_nil (natDigits_ne_nil n)
  have hall := natDigits_all_dig n
  have hc : isDig c = true := hall c (by rw [hcc]; simp)
  have hv : (natDigits n).foldl (fun a c => a * 10 + digitVal c) 0 = n := by
    rw [natDigits_foldl n 0]
    simp
  rw [hcc] at hv ⊢
  simp only [List.foldl_cons, Nat.zero_mul, Nat.zero_add] at hv
  simp only [pyIntOfDigits, hc, if_true]
  rw [pyDigitsAux_digits cs (digitVal c)
    (fun x hx => hall x (by rw [hcc]; exact List.mem_cons_of_mem c hx))]
  rw [hv]

theorem pad2_all_dig (n : Nat) : ∀ c ∈ pad2 n, isDig c = true := by
  unfold pad2
  split
  · intro c hc
    rcases List.mem_cons.mp hc with h | h
    · subst h
      decide
    · exact natDigits_all_dig n c h
  · exact natDigits_all_dig n

theorem pad2_length (n : Nat) (h : n < 100) : (pad2 n).length = 2 := by
  unfold pad2
  split
  · rename_i h10
    rw [natDigits_lt10 n h10]
    rfl
  · rename_i h10
    rw [natDigits, dif_neg h10, natDigits_lt10 (n / 10) (by omega)]
    rfl

theorem pad2_ne_nil (n : Nat) : pad2 n ≠ [] := by
  unfold pad2
  split
  · simp
  · exact natDigits_ne_nil n

theorem pyIntOfDigits_pad2 (n : Nat) (_h : n < 100) :
    pyIntOfDigits (pad2 n) = some n := by
  unfold pad2
  split
  · rename_i h10
    have hv : (natDigits n).foldl (fun a c => a * 10 + digitVal c) 0 = n := by
      rw [natDigits_foldl n 0]
      simp
    simp only [pyIntOfDigits, show isDig '0' = true from by decide, if_true]
    rw [pyDigitsAux_digits _ _ (natDigits_all_dig n),
      show digitVal '0' = 0 from rfl, hv]
  · exact pyIntOfDigits_natDigits n

theorem dropWhile_eq_self_of_no_match (p : Char → Bool) (l : List Char)
    (h : ∀ c ∈ l, p c = false) : l.dropWhile p = l := by
  cases l with
  | nil => rfl
  | cons a t =>
    rw [List.dropWhile_cons, h a (by simp)]
    simp

theorem pyStrip_eq_self (l : List Char) (h : ∀ c ∈ l, isSpace c = false) :
    pyStrip l = l := by
  unfold pyStrip
  rw [dropWhile_eq_self_of_no_match _ l h,
    dropWhile_eq_self_of_no_match _ l.reverse
      (fun c hc => h c (List.mem_reverse.mp hc)),
    List.reverse_reverse]

theorem splitOnce_append (sep : Char) (xs ys : List Char) (h : sep ∉ xs) :
    splitOnce sep (xs ++ sep :: ys) = (xs, some ys) := by
  induction xs with
  | nil => simp [splitOnce]
  | cons a t ih =>
    have ha : ¬(a = sep) := fun hh => h (by simp [hh])
    have iht : splitOnce sep (List.append t (sep :: ys)) = (t, some ys) :=
      ih (fun hm => h (List.mem_cons_of_mem a hm))
    simp only [List.cons_append, splitOnce, if_neg ha, iht]

theorem pyInt_natDigits (n : Nat) : pyInt (natDigits n) = some (n : Int) := by
  obtain ⟨c, cs, hcc⟩ := List.exists_cons_of_ne_nil (natDigits_ne_nil n)
  have hall := natDigits_all_dig n
  have hc : isDig c = true := hall c (by rw [hcc]; simp)
  have hsigns := isDig_ne_sign c hc
  unfold pyInt
  rw [pyStrip_eq_self _ (fun x hx => isDig_not_space x (hall x hx)), hcc]
  dsimp only
  rw [if_neg hsigns.1, if_neg hsigns.2, ← hcc, pyIntOfDigits_natDigits]
  rfl

theorem pyInt_pad2 (n : Nat) (h : n < 100) :
    pyInt (pad2 n) = some (n : Int) := by
  obtain ⟨c, cs, hcc⟩ := List.exists_cons_of_ne_nil (pad2_ne_nil n)
  have hall := pad2_all_dig n
  have hc : isDig c = true := hall c (by rw [hcc]; simp)
  have hsigns := isDig_ne_sign c hc
  unfold pyInt
  rw [pyStrip_eq_self _ (fun x hx => isDig_not_space x (hall x hx)), hcc]
  dsimp only
  rw [if_neg hsigns.1, if_neg hsigns.2, ← hcc, pyIntOfDigits_pad2 n h]
  rfl

/-- C9: converting non-negative cents to a money string and parsing it
back is the identity: `cents_from_money_str (money_from_cents c) = c`
for every natural number of cents `c`. -/
theorem C9_money_round_trip (c : Nat) :
    cents_from_money_str (money_from_cents (c : Int)) = some (c : Int) := by
  have hnn : ¬((c : Int) < 0) := by omega
  have habs : (c : Int).natAbs = c := Int.natAbs_ofNat c
  unfold money_from_cents
  rw [if_neg hnn, habs, List.nil_append]
  have hd1 := natDigits_all_dig (c / 100)
  have hd2 := pad2_all_dig (c % 100)
  have hns : ∀ ch ∈ natDigits (c / 100) ++ '.' :: pad2 (c % 100),
      isSpace ch = false := by
    intro ch hch
    rcases List.mem_append.mp hch with h | h
    · exact isDig_not_space ch (hd1 ch h)
    · rcases List.mem_cons.mp h with h | h
      · subst h
        decide
      · exact isDig_not_space ch (hd2 ch h)
  have hdot : '.' ∉ natDigits (c / 100) := by
    intro hm
    exact absurd (hd1 '.' hm) (by decide)
  simp only [cents_from_money_str]
  rw [pyStrip_eq_self _ hns]
  rw [if_neg (by simp [List.append_eq_nil] :
    ¬(natDigits (c / 100) ++ '.' :: pad2 (c % 100) = []))]
  rw [if_pos (show (natDigits (c / 100) ++ '.' :: pad2 (c % 100)).contains
      '.' = true by simp)]
  rw [splitOnce_append '.' _ _ hdot]
  dsimp only
  rw [List.take_left' (pad2_length (c % 100) (by omega))]
  rw [pyInt_natDigits, pyInt_pad2 (c % 100) (by omega)]
  dsimp only
  congr 1
  push_cast
  omega

/-! ## Claim C2: projected bill due dates -/

theorem addDays_within (y m dy k : Nat)
    (h : dy + k ≤ daysInMonth y m) :
    addDays ⟨y, m, dy⟩ k = ⟨y, m, dy + k⟩ := by
  induction k with
  | zero => simp [addDays]
  | succ j ih =>
    have hj := ih (by omega)
    have hstep : addDays ⟨y, m, dy⟩ (j + 1)
        = nextDay (addDays ⟨y, m, dy⟩ j) := by
      simp [addDays, Function.iterate_succ_apply']
    rw [hstep, hj]
    unfold nextDay
    dsimp only
    rw [if_pos (by omega : dy + j < daysInMonth y m)]
    rfl

theorem nextDay_month_end (y m : Nat) :
    nextDay ⟨y, m, daysInMonth y m⟩
      = if m < 12 then (⟨y, m + 1, 1⟩ : Date) else ⟨y + 1, 1, 1⟩ := by
  unfold nextDay
  dsimp only
  rw [if_neg (by omega : ¬(daysInMonth y m < daysInMonth y m))]

theorem addDays_32_from_first (y m : Nat) (h1 : 1 ≤ m) (h2 : m ≤ 12) :
    addDays ⟨y, m, 1⟩ 32
      = ⟨(monthFirstNext ⟨y, m, 1⟩).year, (monthFirstNext ⟨y, m, 1⟩).month,
          33 - daysInMonth y m⟩ := by
  have hb := daysInMonth_bounds y m h1 h2
  have hsplit : 32 = (33 - daysInMonth y m) + (daysInMonth y m - 1) := by
    omega
  unfold addDays
  rw [hsplit, Function.iterate_add_apply]
  have hin : nextDay^[daysInMonth y m - 1] (⟨y, m, 1⟩ : Date)
      = ⟨y, m, daysInMonth y m⟩ := by
    have := addDays_within y m 1 (daysInMonth y m - 1) (by omega)
    unfold addDays at this
    rw [this]
    congr 1
    omega
  rw [hin,
    show 33 - daysInMonth y m = (32 - daysInMonth y m) + 1 from by omega,
    Function.iterate_succ_apply, nextDay_month_end y m]
  unfold monthFirstNext
  dsimp only
  by_cases hm : m < 12
  · rw [if_pos hm]
    dsimp only
    have hb2 := daysInMonth_bounds y (m + 1) (by omega) (by omega)
    have := addDays_within y (m + 1) 1 (32 - daysInMonth y m) (by omega)
    unfold addDays at this
    rw [this]
    congr 1
    omega
  · rw [if_neg hm]
    dsimp only
    have hb2 := daysInMonth_bounds (y + 1) 1 (by omega) (by omega)
    have := addDays_within (y + 1) 1 1 (32 - daysInMonth y m) (by omega)
    unfold addDays at this
    rw [this]
    congr 1
    omega

theorem prevDay_monthFirstNext (y m : Nat) (h1 : 1 ≤ m) (h2 : m ≤ 12) :
    prevDay (monthFirstNext ⟨y, m, 1⟩) = ⟨y, m, daysInMonth y m⟩ := by
  unfold monthFirstNext
  dsimp only
  by_cases hm : m < 12
  · rw [if_pos hm]
    unfold prevDay
    dsimp only
    rw [if_neg (by omega : ¬(1 < 1)), if_pos (by omega : 1 < m + 1),
      Nat.add_sub_cancel]
  · have hm12 : m = 12 := by omega
    subst hm12
    rw [if_neg hm]
    unfold prevDay
    dsimp only
    rw [if_neg (by omega : ¬(1 < 1)), if_neg (by omega : ¬(1 < 1)),
      Nat.add_sub_cancel]
    rfl

theorem replace_add32_first (y m : Nat) (h1 : 1 ≤ m) (h2 : m ≤ 12) :
    replaceDay (addDays ⟨y, m, 1⟩ 32) 1 = monthFirstNext ⟨y, m, 1⟩ := by
  unfold replaceDay
  rw [addDays_32_from_first y m h1 h2]
  unfold monthFirstNext
  dsimp only
  split <;> rfl

theorem firstOfNextMonthCode_eq (today : Date) (hv : Valid today) :
    firstOfNextMonthCode today = monthFirstNext today := by
  obtain ⟨y, m, dy⟩ := today
  obtain ⟨hy, hm1, hm2, hd1, hd2⟩ := hv
  unfold firstOfNextMonthCode replaceDay
  dsimp only
  rw [show (⟨y, m, 1⟩ : Date) = ⟨(⟨y, m, dy⟩ : Date).year,
    (⟨y, m, dy⟩ : Date).month, 1⟩ from rfl] at *
  exact replace_add32_first y m hm1 hm2

theorem dateLt_same_ym (y m a b : Nat) :
    dateLt ⟨y, m, a⟩ ⟨y, m, b⟩ = decide (a < b) := by
  unfold dateLt
  dsimp only
  exact decide_eq_decide.mpr (by omega)

theorem dueBefore_foldl (bills : List RecurringBill) (today np : Date) :
    ∀ acc : List RecurringBill × Int,
    bills.foldl (fun acc b =>
      if dateLt (dueDateCode today b.due_day) np then
        (acc.1 ++ [b], acc.2 + b.amount_cents) else acc) acc
    = (acc.1 ++
        bills.filter (fun b => dateLt (dueDateCode today b.due_day) np),
       acc.2 + ((bills.filter
          (fun b => dateLt (dueDateCode today b.due_day) np)).map
            RecurringBill.amount_cents).sum) := by
  induction bills with
  | nil =>
    intro acc
    simp
  | cons b bs ih =>
    intro acc
    rw [List.foldl_cons]
    by_cases hb : dateLt (dueDateCode today b.due_day) np = true
    · rw [if_pos hb, ih]
      simp [List.filter_cons, hb]
      ring
    · rw [if_neg hb, ih]
      simp [List.filter_cons, hb]

/-- C2: for every (valid) value of today and every due day, the dashboard's
projected due date is the day `min d (length of the month)` of the current
month when that clamped day has not yet passed, and otherwise the day
`min d (length of the following month)` of the immediately following month
(`monthFirstNext`); and a bill appears in the dashboard's due list (with
its amount added to the bills total) exactly when it is the user's, is
active, and its projected due date is strictly before the next payday. -/
theorem C2_projected_due_dates (today np : Date) (hv : Valid today) :
    (∀ d : Nat,
      (today.day ≤ min d (daysInMonth today.year today.month) →
        dueDateCode today d
          = ⟨today.year, today.month,
              min d (daysInMonth today.year today.month)⟩) ∧
      (min d (daysInMonth today.year today.month) < today.day →
        dueDateCode today d
          = ⟨(monthFirstNext today).year, (monthFirstNext today).month,
              min d (daysInMonth (monthFirstNext today).year
                (monthFirstNext today).month)⟩))
    ∧ ∀ (tbl : List RecurringBill) (uid : Nat),
        (∀ b : RecurringBill,
          b ∈ (dueBeforeCode tbl uid today np).1 ↔
            b ∈ tbl ∧ b.user_id = uid ∧ b.active = 1 ∧
              dateLt (dueDateCode today b.due_day) np = true)
        ∧ (dueBeforeCode tbl uid today np).2
            = ((tbl.filter fun b => b.user_id == uid && b.active == 1 &&
                  dateLt (dueDateCode today b.due_day) np).map
                RecurringBill.amount_cents).sum := by
  have hE := firstOfNextMonthCode_eq today hv
  obtain ⟨y, m, dy⟩ := today
  obtain ⟨hy, hm1, hm2, hd1, hd2⟩ := hv
  dsimp only at hy hm1 hm2 hd1 hd2 ⊢
  have hD : prevDay (monthFirstNext ⟨y, m, dy⟩)
      = ⟨y, m, daysInMonth y m⟩ := by
    have heq : monthFirstNext (⟨y, m, dy⟩ : Date)
        = monthFirstNext ⟨y, m, 1⟩ := rfl
    rw [heq, prevDay_monthFirstNext y m hm1 hm2]
  constructor
  · intro d
    unfold dueDateCode
    rw [hE]
    dsimp only
    rw [hD]
    dsimp only
    rw [show replaceDay (⟨y, m, dy⟩ : Date) (min d (daysInMonth y m))
        = ⟨y, m, min d (daysInMonth y m)⟩ from rfl,
      dateLt_same_ym]
    constructor
    · intro hle
      rw [if_neg (by simp only [decide_eq_true_eq]; omega)]
    · intro hlt
      rw [if_pos (by rw [decide_eq_true_eq]; exact hlt)]
      have hmf : monthFirstNext (⟨y, m, dy⟩ : Date)
          = if m < 12 then (⟨y, m + 1, 1⟩ : Date) else ⟨y + 1, 1, 1⟩ := rfl
      rw [hmf]
      by_cases hm : m < 12
      · rw [if_pos hm,
          replace_add32_first y (m + 1) (by omega) (by omega),
          prevDay_monthFirstNext y (m + 1) (by omega) (by omega)]
        rfl
      · rw [if_neg hm,
          replace_add32_first (y + 1) 1 (by omega) (by omega),
          prevDay_monthFirstNext (y + 1) 1 (by omega) (by omega)]
        rfl
  · intro tbl uid
    unfold dueBeforeCode
    rw [dueBefore_foldl]
    dsimp only
    constructor
    · intro b
      rw [List.nil_append, List.mem_filter, List.mem_filter]
      simp only [Bool.and_eq_true, beq_iff_eq]
      tauto
    · rw [List.filter_filter, zero_add]
      congr 1
      refine congrArg _ (List.filter_congr ?_)
      intro b _
      cases hu : b.user_id == uid <;>
        cases hac : b.active == 1 <;>
        cases hdd : dateLt (dueDateCode ⟨y, m, dy⟩ b.due_day) np <;> rfl

/-- Witness for C2: today = 0005-01-31 with a bill due on day 30 projects
to 0005-02-28 (clamped into short February of the following month), and
that bill is listed when the next payday is 0005-03-01. -/
theorem C2_witness :
    Valid ⟨5, 1, 31⟩ ∧
    dueDateCode ⟨5, 1, 31⟩ 30 = ⟨5, 2, 28⟩ ∧
    (⟨1, "Rent".data, 5000, 30, 1⟩ : RecurringBill) ∈
      (dueBeforeCode [⟨1, "Rent".data, 5000, 30, 1⟩] 1
        ⟨5, 1, 31⟩ ⟨5, 3, 1⟩).1 :=
  ⟨by decide,
    (((C2_projected_due_dates ⟨5, 1, 31⟩ ⟨5, 3, 1⟩ (by decide)).1 30).2
      (by decide)).trans (by decide),
    (((C2_projected_due_dates ⟨5, 1, 31⟩ ⟨5, 3, 1⟩ (by decide)).2
        [⟨1, "Rent".data, 5000, 30, 1⟩] 1).1 _).mpr
      ⟨by decide, rfl, rfl, by decide⟩⟩

/-! ## Claim C4: the dashboard's remaining amount.

The dashboard's `BETWEEN` compares the raw stored `occurred_on` text in
SQLite's BINARY string order against the zero-padded `ymd` renderings of
the period endpoints.  String order coincides with date order exactly on
canonical zero-padded renderings; the lemmas below establish that
coincidence, and the counterexample exhibits a reachable non-canonical
row on which the two orders disagree. -/

theorem foldl_add_amount (l : List Txn) (a : Int) :
    l.foldl (fun acc t => acc + t.amount_cents) a
      = a + (l.map Txn.amount_cents).sum := by
  induction l generalizing a with
  | nil => simp
  | cons t ts ih =>
    simp only [List.foldl_cons, List.map_cons, List.sum_cons, ih]
    ring

theorem char_toNat_inj (a b : Char) (h : a.toNat = b.toNat) : a = b :=
  Char.ext (UInt32.ext h)

theorem strLt_cons_same (c : Char) (u v : List Char) :
    strLt (c :: u) (c :: v) = strLt u v := by
  simp [strLt]

theorem strLt_singleton (a b : Char) :
    strLt [a] [b] = decide (a.toNat < b.toNat) := by
  by_cases h1 : a.toNat < b.toNat
  · simp [strLt, h1]
  · by_cases h2 : b.toNat < a.toNat <;> simp [strLt, h1, h2]

theorem strLt_append (u : List Char) :
    ∀ (u' v v' : List Char), u.length = u'.length →
    strLt (u ++ v) (u' ++ v')
      = (strLt u u' || (u == u' && strLt v v')) := by
  induction u with
  | nil =>
    intro u' v v' hlen
    cases u' with
    | nil => simp [strLt]
    | cons b bs => simp at hlen
  | cons a as ih =>
    intro u' v v' hlen
    cases u' with
    | nil => simp at hlen
    | cons b bs =>
      simp only [List.cons_append]
      by_cases h1 : a.toNat < b.toNat
      · simp [strLt, h1]
      · by_cases h2 : b.toNat < a.toNat
        · have hab : (a == b) = false := by
            refine beq_eq_false_iff_ne.mpr (fun he => ?_)
            subst he
            omega
          simp [strLt, h1, h2, hab]
        · have hab : a = b := char_toNat_inj a b (by omega)
          subst hab
          rw [strLt_cons_same, strLt_cons_same,
            ih bs v v' (by simpa using hlen)]
          by_cases heq : as = bs
          · simp [heq]
          · have h1' : (as == bs) = false := beq_eq_false_iff_ne.mpr heq
            have h2' : ((a :: as : List Char) == a :: bs) = false :=
              beq_eq_false_iff_ne.mpr (by simpa using heq)
            simp [h1', h2']

theorem padW_length (w : Nat) : ∀ n, (padW w n).length = w := by
  induction w with
  | zero =>
    intro n
    rfl
  | succ w ih =>
    intro n
    simp [padW, ih]

theorem padW_ne_nil (w n : Nat) (hw : 1 ≤ w) : padW w n ≠ [] := by
  intro hc
  have hl := padW_length w n
  rw [hc] at hl
  simp at hl
  omega

theorem padW_all_dig (w : Nat) : ∀ n, ∀ c ∈ padW w n, isDig c = true := by
  induction w with
  | zero =>
    intro n c hc
    cases hc
  | succ w ih =>
    intro n c hc
    simp only [padW] at hc
    rcases List.mem_append.mp hc with h | h
    · exact ih (n / 10) c h
    · rw [List.mem_singleton] at h
      subst h
      exact digitChar_isDig (n % 10) (Nat.mod_lt _ (by omega))

theorem padW_foldl (w : Nat) : ∀ n acc, n < 10 ^ w →
    (padW w n).foldl (fun a c => a * 10 + digitVal c) acc
      = acc * 10 ^ w + n := by
  induction w with
  | zero =>
    intro n acc h
    have hn : n = 0 := by omega
    subst hn
    simp [padW]
  | succ w ih =>
    intro n acc h
    have hdiv : n / 10 < 10 ^ w := by
      rw [Nat.div_lt_iff_lt_mul (by omega), ← pow_succ]
      exact h
    simp only [padW, List.foldl_append, List.foldl_cons, List.foldl_nil]
    rw [ih (n / 10) acc hdiv,
      digitChar_val (n % 10) (Nat.mod_lt _ (by omega)),
      pow_succ, ← mul_assoc]
    generalize acc * 10 ^ w = A
    omega

theorem padW_inj (w x y : Nat) (hx : x < 10 ^ w) (hy : y < 10 ^ w)
    (h : padW w x = padW w y) : x = y := by
  have h1 := padW_foldl w x 0 hx
  have h2 := padW_foldl w y 0 hy
  rw [h] at h1
  omega

theorem padW_beq (w x y : Nat) (hx : x < 10 ^ w) (hy : y < 10 ^ w) :
    (padW w x == padW w y) = decide (x = y) := by
  by_cases h : x = y
  · subst h
    simp
  · have h1 : (padW w x == padW w y) = false :=
      beq_eq_false_iff_ne.mpr (fun hc => h (padW_inj w x y hx hy hc))
    simp [h1, h]

theorem digitChar_toNat (m : Nat) (h : m < 10) :
    (Nat.digitChar m).toNat = 48 + m := by
  interval_cases m <;> decide

theorem padW_order (w : Nat) : ∀ x y, x < 10 ^ w → y < 10 ^ w →
    strLt (padW w x) (padW w y) = decide (x < y) := by
  induction w with
  | zero =>
    intro x y hx hy
    have hx0 : x = 0 := by omega
    have hy0 : y = 0 := by omega
    subst hx0
    subst hy0
    simp [padW, strLt]
  | succ w ih =>
    intro x y hx hy
    have hxd : x / 10 < 10 ^ w := by
      rw [Nat.div_lt_iff_lt_mul (by omega), ← pow_succ]
      exact hx
    have hyd : y / 10 < 10 ^ w := by
      rw [Nat.div_lt_iff_lt_mul (by omega), ← pow_succ]
      exact hy
    simp only [padW]
    rw [strLt_append _ _ _ _ (by rw [padW_length, padW_length]),
      ih (x / 10) (y / 10) hxd hyd,
      padW_beq w _ _ hxd hyd,
      strLt_singleton,
      digitChar_toNat (x % 10) (Nat.mod_lt _ (by omega)),
      digitChar_toNat (y % 10) (Nat.mod_lt _ (by omega)),
      ← Bool.decide_and, ← Bool.decide_or]
    exact decide_eq_decide.mpr (by omega)

theorem strLt_ymd (a b : Date) (hva : Valid a) (hvb : Valid b)
    (ha : a.year ≤ 9999) (hb : b.year ≤ 9999) :
    strLt (ymd a) (ymd b) = dateLt a b := by
  obtain ⟨ya, ma, da⟩ := a
  obtain ⟨yb, mb, db⟩ := b
  obtain ⟨hya, hma1, hma2, hda1, hda2⟩ := hva
  obtain ⟨hyb, hmb1, hmb2, hdb1, hdb2⟩ := hvb
  dsimp only at hya hma1 hma2 hda1 hda2 hyb hmb1 hmb2 hdb1 hdb2 ha hb
  have h100 : (10 : Nat) ^ 2 = 100 := by norm_num
  have h10k : (10 : Nat) ^ 4 = 10000 := by norm_num
  have hdia := daysInMonth_bounds ya ma hma1 hma2
  have hdib := daysInMonth_bounds yb mb hmb1 hmb2
  unfold ymd
  dsimp only
  rw [strLt_append _ _ _ _ (by rw [padW_length, padW_length]),
    padW_order 4 ya yb (by omega) (by omega),
    padW_beq 4 ya yb (by omega) (by omega),
    strLt_cons_same,
    strLt_append _ _ _ _ (by rw [padW_length, padW_length]),
    padW_order 2 ma mb (by omega) (by omega),
    padW_beq 2 ma mb (by omega) (by omega),
    strLt_cons_same,
    padW_order 2 da db (by omega) (by omega)]
  unfold dateLt
  dsimp only
  rw [← Bool.decide_and, ← Bool.decide_or, ← Bool.decide_and,
    ← Bool.decide_or]

theorem ymd_inj (a b : Date) (hva : Valid a) (hvb : Valid b)
    (ha : a.year ≤ 9999) (hb : b.year ≤ 9999) (h : ymd a = ymd b) :
    a = b := by
  obtain ⟨ya, ma, da⟩ := a
  obtain ⟨yb, mb, db⟩ := b
  obtain ⟨hya, hma1, hma2, hda1, hda2⟩ := hva
  obtain ⟨hyb, hmb1, hmb2, hdb1, hdb2⟩ := hvb
  dsimp only at hya hma1 hma2 hda1 hda2 hyb hmb1 hmb2 hdb1 hdb2 ha hb
  have h100 : (10 : Nat) ^ 2 = 100 := by norm_num
  have h10k : (10 : Nat) ^ 4 = 10000 := by norm_num
  have hdia := daysInMonth_bounds ya ma hma1 hma2
  have hdib := daysInMonth_bounds yb mb hmb1 hmb2
  unfold ymd at h
  dsimp only at h
  obtain ⟨hy, htail⟩ :=
    List.append_inj h (by rw [padW_length, padW_length])
  injection htail with _ htail
  obtain ⟨hm, htail2⟩ :=
    List.append_inj htail (by rw [padW_length, padW_length])
  injection htail2 with _ hd
  have e1 := padW_inj 4 ya yb (by omega) (by omega) hy
  have e2 := padW_inj 2 ma mb (by omega) (by omega) hm
  have e3 := padW_inj 2 da db (by omega) (by omega) hd
  subst e1
  subst e2
  subst e3
  rfl

theorem strLe_ymd (a b : Date) (hva : Valid a) (hvb : Valid b)
    (ha : a.year ≤ 9999) (hb : b.year ≤ 9999) :
    strLe (ymd a) (ymd b) = dateLe a b := by
  unfold strLe dateLe
  rw [strLt_ymd a b hva hvb ha hb]
  by_cases h : a = b
  · subst h
    simp
  · have h1 : (ymd a == ymd b) = false :=
      beq_eq_false_iff_ne.mpr (fun hc => h (ymd_inj a b hva hvb ha hb hc))
    have h2 : (a == b) = false := beq_eq_false_iff_ne.mpr h
    rw [h1, h2]

theorem not_mem_padW_dash (w n : Nat) : '-' ∉ padW w n := by
  intro hm
  exact absurd (padW_all_dig w n '-' hm) (by decide)

theorem splitAll_no_sep (sep : Char) (u : List Char) (h : sep ∉ u) :
    splitAll sep u = [u] := by
  induction u with
  | nil => rfl
  | cons a t ih =>
    have ha : ¬(a = sep) := fun hh => h (by simp [hh])
    simp only [splitAll, if_neg ha]
    rw [ih (fun hm => h (List.mem_cons_of_mem a hm))]

theorem splitAll_append (sep : Char) (u v : List Char) (h : sep ∉ u) :
    splitAll sep (u ++ sep :: v) = u :: splitAll sep v := by
  induction u with
  | nil => simp [splitAll]
  | cons a t ih =>
    have ha : ¬(a = sep) := fun hh => h (by simp [hh])
    have iht : splitAll sep (List.append t (sep :: v))
        = t :: splitAll sep v :=
      ih (fun hm => h (List.mem_cons_of_mem a hm))
    simp only [List.cons_append, splitAll, if_neg ha, iht]

theorem digitsField_padW (w n : Nat) (hw : 1 ≤ w) (h : n < 10 ^ w) :
    digitsField (padW w n) = some n := by
  unfold digitsField
  rw [if_pos ⟨padW_ne_nil w n hw, List.all_eq_true.mpr (padW_all_dig w n)⟩,
    padW_foldl w n 0 h]
  simp

/-- Round trip: a canonical `ymd` rendering parses back to its date. -/
theorem parse_ymd_ymd (d : Date) (hv : Valid d) (hy2 : d.year ≤ 9999) :
    parse_ymd (ymd d) = some d := by
  obtain ⟨y, m, dd⟩ := d
  obtain ⟨hy, hm1, hm2, hd1, hd2⟩ := hv
  dsimp only at hy hm1 hm2 hd1 hd2 hy2
  have hdim := daysInMonth_bounds y m hm1 hm2
  have h100 : (10 : Nat) ^ 2 = 100 := by norm_num
  have h10k : (10 : Nat) ^ 4 = 10000 := by norm_num
  unfold ymd parse_ymd
  dsimp only
  rw [splitAll_append '-' _ _ (not_mem_padW_dash 4 y),
    splitAll_append '-' _ _ (not_mem_padW_dash 2 m),
    splitAll_no_sep '-' _ (not_mem_padW_dash 2 dd)]
  dsimp only
  rw [if_pos ⟨padW_length 4 y, by simp [padW_length], by simp [padW_length],
    by simp [padW_length], by simp [padW_length]⟩]
  rw [digitsField_padW 4 y (by omega) (by omega),
    digitsField_padW 2 m (by omega) (by omega),
    digitsField_padW 2 dd (by omega) (by omega)]
  dsimp only
  rw [if_pos ⟨hy, hm1, hm2, hd1, hd2⟩]

/-- On a canonically-stored transaction the SQL string window test equals
the claim's date window test. -/
theorem window_pred_canonical (s e : Date) (t : Txn)
    (hvs : Valid s) (hve : Valid e)
    (hs2 : s.year ≤ 9999) (he2 : e.year ≤ 9999)
    (hcan : ∃ d : Date, Valid d ∧ 1000 ≤ d.year ∧ d.year ≤ 9999 ∧
      t.occurred_on = ymd d) :
    (strLe (ymd s) t.occurred_on && strLe t.occurred_on (ymd e))
      = inWindowB s e t := by
  obtain ⟨d, hvd, hd1, hd2, hoc⟩ := hcan
  unfold inWindowB
  rw [hoc, parse_ymd_ymd d hvd hd2]
  dsimp only
  rw [strLe_ymd s d hvs hvd hs2 hd2, strLe_ymd d e hvd hve hd2 he2]

/-- C4 counterexample: the transactions route accepts "2026-1-5" (its
`strptime` check passes, so the raw text is stored verbatim) and the date
it denotes, 2026-01-05, lies inside the pay period 2026-01-02..2026-01-15;
yet the dashboard's string `BETWEEN` excludes the row ('2026-1-5' sorts
above '2026-01-15'), so remaining is 0 where the claim demands
0 + 500 - 0.  Storing the same date canonically yields 500. -/
theorem C4_counterexample :
    parse_ymd "2026-1-5".data = some ⟨2026, 1, 5⟩ ∧
    parse_ymd "2026-01-05".data = some ⟨2026, 1, 5⟩ ∧
    dateLe ⟨2026, 1, 2⟩ ⟨2026, 1, 5⟩ = true ∧
    dateLe ⟨2026, 1, 5⟩ ⟨2026, 1, 15⟩ = true ∧
    dashboardRemaining
        [⟨1, Kind.income, 500, "Other".data, "2026-1-5".data⟩]
        1 0 ⟨2026, 1, 2⟩ ⟨2026, 1, 15⟩ = 0 ∧
    dashboardRemaining
        [⟨1, Kind.income, 500, "Other".data, "2026-1-5".data⟩]
        1 0 ⟨2026, 1, 2⟩ ⟨2026, 1, 15⟩ ≠ 0 + 500 - 0 ∧
    dashboardRemaining
        [⟨1, Kind.income, 500, "Other".data, "2026-01-05".data⟩]
        1 0 ⟨2026, 1, 2⟩ ⟨2026, 1, 15⟩ = 500 :=
  ⟨by decide, by decide, by decide, by decide, by decide, by decide,
    by decide⟩

/-- C4 amended: when every stored `occurred_on` text of the set is a
canonical zero-padded `YYYY-MM-DD` rendering of a date with a 4-digit
year (and the period endpoints likewise have 4-digit years), the
dashboard's remaining amount equals `typical_net_pay_cents` plus the sum
of `amount_cents` over the user's income transactions whose date lies
within the current pay period (both endpoints included) minus the
corresponding expense sum; and a canonically-stored transaction of
another user, or one whose date falls outside the window, contributes
nothing. -/
theorem C4_remaining_aggregation_amended (txs : List Txn) (uid : Nat)
    (typical : Int) (s e : Date)
    (hvs : Valid s) (hve : Valid e)
    (hs2 : s.year ≤ 9999) (he2 : e.year ≤ 9999)
    (hc : ∀ t ∈ txs, ∃ d : Date, Valid d ∧ 1000 ≤ d.year ∧
      d.year ≤ 9999 ∧ t.occurred_on = ymd d) :
    (dashboardRemaining txs uid typical s e
      = typical
        + ((txs.filter fun t => t.kind == Kind.income &&
              t.user_id == uid && inWindowB s e t).map
            Txn.amount_cents).sum
        - ((txs.filter fun t => t.kind == Kind.expense &&
              t.user_id == uid && inWindowB s e t).map
            Txn.amount_cents).sum)
    ∧ ∀ t : Txn,
        (t.user_id ≠ uid ∨ inWindowB s e t = false) →
        (∃ d : Date, Valid d ∧ 1000 ≤ d.year ∧ d.year ≤ 9999 ∧
          t.occurred_on = ymd d) →
        dashboardRemaining (t :: txs) uid typical s e
          = dashboardRemaining txs uid typical s e := by
  have hpt : ∀ k : Kind, ∀ t ∈ txs,
      (t.user_id == uid && strLe (ymd s) t.occurred_on &&
        strLe t.occurred_on (ymd e) && t.kind == k)
      = (t.kind == k && t.user_id == uid && inWindowB s e t) := by
    intro k t ht
    rw [← window_pred_canonical s e t hvs hve hs2 he2 (hc t ht)]
    cases t.kind == k <;> cases t.user_id == uid <;>
      cases strLe (ymd s) t.occurred_on <;>
      cases strLe t.occurred_on (ymd e) <;> rfl
  constructor
  · unfold dashboardRemaining sqlKindTotal
    rw [foldl_add_amount, foldl_add_amount,
      List.filter_congr (hpt Kind.income),
      List.filter_congr (hpt Kind.expense)]
    ring
  · intro t ht hcan
    unfold dashboardRemaining sqlKindTotal
    have hw := window_pred_canonical s e t hvs hve hs2 he2 hcan
    have hfalse : ∀ k : Kind,
        (t.user_id == uid && strLe (ymd s) t.occurred_on &&
          strLe t.occurred_on (ymd e) && t.kind == k) = false := by
      intro k
      rcases ht with h | h
      · have hu : (t.user_id == uid) = false := by simp [h]
        simp [hu]
      · rw [← hw] at h
        cases hA : strLe (ymd s) t.occurred_on <;>
          cases hB : strLe t.occurred_on (ymd e) <;>
          simp_all
    simp [List.filter_cons, hfalse]

/-- Witness for the amended C4: a canonically-stored in-window income of
500 cents for user 1 raises remaining to 1400, and a canonically-stored
transaction of another user leaves remaining unchanged. -/
theorem C4_witness :
    (dashboardRemaining
        [⟨1, Kind.income, 500, "Other".data, "2026-01-05".data⟩]
        1 900 ⟨2026, 1, 2⟩ ⟨2026, 1, 15⟩ = 1400) ∧
    dashboardRemaining
        (⟨2, Kind.expense, 300, "Rent".data, "2026-01-05".data⟩ ::
          [⟨1, Kind.income, 500, "Other".data, "2026-01-05".data⟩])
        1 900 ⟨2026, 1, 2⟩ ⟨2026, 1, 15⟩
      = dashboardRemaining
          [⟨1, Kind.income, 500, "Other".data, "2026-01-05".data⟩]
          1 900 ⟨2026, 1, 2⟩ ⟨2026, 1, 15⟩ := by
  have hc : ∀ t ∈ [(⟨1, Kind.income, 500, "Other".data,
      "2026-01-05".data⟩ : Txn)],
      ∃ d : Date, Valid d ∧ 1000 ≤ d.year ∧ d.year ≤ 9999 ∧
        t.occurred_on = ymd d := by
    intro t ht
    rw [List.mem_singleton] at ht
    subst ht
    exact ⟨⟨2026, 1, 5⟩, by decide, by decide, by decide, by decide⟩
  have h := C4_remaining_aggregation_amended
    [⟨1, Kind.income, 500, "Other".data, "2026-01-05".data⟩] 1 900
    ⟨2026, 1, 2⟩ ⟨2026, 1, 15⟩ (by decide) (by decide) (by decide)
    (by decide) hc
  exact ⟨h.1.trans (by decide),
    h.2 ⟨2, Kind.expense, 300, "Rent".data, "2026-01-05".data⟩
      (Or.inl (by decide))
      ⟨⟨2026, 1, 5⟩, by decide, by decide, by decide, by decide⟩⟩

end SPB

